import Mathlib

/-!
Shallow embedding of the RecipeSite server (src/server/src/index.ts,
src/server/src/auth.ts, src/server/src/validators.ts) for verification of
its natural-language specification.

Modelling conventions:
* Database row identifiers are opaque naturals; the store carries a
  `nextId` counter from which every freshly created row id is drawn.
* The relational store is a record of tables.  Block rows and tag
  association rows are wholly owned by their parent recipe (foreign key with
  cascade delete), so they are kept grouped inside the recipe row, which is
  observationally equivalent for every operation the server performs.
* External collaborators (bcrypt's hash/compare, the JWT library's opaque
  signature) are parameters or minimal algebraic models; the spec treats
  them as given services.
* Each HTTP handler becomes a pure function from the request data and the
  store to a response (and the updated store, when the handler writes).
-/

namespace RecipeSite

/-- Role of a user, mirroring the Prisma `Role` enum. -/
inductive Role where
  | USER
  | ADMIN
deriving DecidableEq

/-- Token payload / request identity, mirroring `AuthUser` in auth.ts:
{id, email, displayName, role}. -/
structure AuthUser where
  id : Nat
  email : String
  displayName : String
  role : Role
deriving DecidableEq

/-- A user row in the credential store (Prisma `User`). -/
structure UserRow where
  id : Nat
  email : String
  displayName : String
  passwordHash : String
  role : Role
deriving DecidableEq

/-- A tag row (Prisma `Tag`), unique on the pair (name, color). -/
structure TagRow where
  id : Nat
  name : String
  color : String
deriving DecidableEq

/-- Block discriminant, mirroring the Prisma `BlockType` enum. -/
inductive BlockType where
  | TEXT
  | PHOTO
deriving DecidableEq

/-- A block row (Prisma `Block`): id, order, type and the nullable payload
columns text / photoUrl. -/
structure BlockRow where
  id : Nat
  order : Nat
  type : BlockType
  text : Option String
  photoUrl : Option String
deriving DecidableEq

/-- A recipe row together with its wholly-owned child rows: the tag
association rows (`recipeTags`, kept as the list of tag ids) and the block
rows. -/
structure RecipeRow where
  id : Nat
  name : String
  ownerId : Nat
  updatedAt : Nat
  tagIds : List Nat
  blocks : List BlockRow
deriving DecidableEq

/-- The relational store: users, tags, recipes (with their children), the
fresh-id counter, and the current clock value (used for `updatedAt` and
token expiry). -/
structure Store where
  users : List UserRow
  tags : List TagRow
  recipes : List RecipeRow
  nextId : Nat
  now : Nat
deriving DecidableEq

/- ===== Auth (src/server/src/auth.ts, signToken in index.ts) ===== -/

/-- A cookie value presented as the auth token: either a string that the
JWT library cannot parse, or a structurally valid signed token carrying a
payload, a signature and an expiry instant. -/
inductive Jwt where
  | malformed (raw : String)
  | signed (payload : AuthUser) (sig : String) (exp : Nat)
deriving DecidableEq

/-- Name of a role as serialised into the token signature input. -/
def roleName : Role → String
  | .USER => "USER"
  | .ADMIN => "ADMIN"

/-- Model of the JWT HMAC: a deterministic tag over the secret and the
payload fields.  A token whose `sig` differs from `mac secret payload` is
tampered. -/
def mac (secret : String) (p : AuthUser) : String :=
  secret ++ "|" ++ toString p.id ++ "|" ++ p.email ++ "|" ++ p.displayName ++ "|" ++ roleName p.role

/-- Embedding of `signToken` (index.ts): jwt.sign(user, secret, {expiresIn}).
`expiresIn` is the configured lifetime (default 7 days) in clock units. -/
def signToken (secret : String) (expiresIn : Nat) (now : Nat) (p : AuthUser) : Jwt :=
  .signed p (mac secret p) (now + expiresIn)

/-- Failure modes of jwt.verify. -/
inductive JwtError where
  | malformedToken
  | badSignature
  | expired
deriving DecidableEq

/-- Model of jwt.verify: throws (returns an error) on a malformed token, a
bad signature, or an expired token; otherwise yields the payload. -/
def jwtVerify (secret : String) (now : Nat) : Jwt → Except JwtError AuthUser
  | .malformed _ => .error .malformedToken
  | .signed p sig exp =>
    if sig ≠ mac secret p then .error .badSignature
    else if exp ≤ now then .error .expired
    else .ok p

/-- Embedding of `authOptional` (auth.ts): read the auth cookie; if absent,
continue anonymous; otherwise try jwt.verify and swallow every failure
(the catch block), attaching the payload only on success. -/
def authOptional (secret : String) (now : Nat) (cookie : Option Jwt) : Option AuthUser :=
  match cookie with
  | none => none
  | some tok =>
    match jwtVerify secret now tok with
    | .ok p => some p
    | .error _ => none

/-- Embedding of `canEdit` (index.ts): anonymous callers cannot edit,
ADMIN can edit anything, otherwise only the owner. -/
def canEdit (user : Option AuthUser) (ownerId : Nat) : Bool :=
  match user with
  | none => false
  | some u => if u.role = Role.ADMIN then true else u.id == ownerId

/- ===== Validators (src/server/src/validators.ts) ===== -/

/-- Body of POST /api/auth/register. -/
structure RegisterBody where
  email : String
  displayName : String
  password : String
deriving DecidableEq

/-- Body of POST /api/auth/login. -/
structure LoginBody where
  email : String
  password : String
deriving DecidableEq

/-- Tag input of the recipe upsert schema (the optional client-side id is
ignored by the server, which only uses name and color). -/
structure TagInput where
  name : String
  color : String
deriving DecidableEq

/-- Block input of the recipe upsert schema: a discriminated union on
`type` carrying text or photoUrl. -/
inductive BlockInput where
  | text (text : String)
  | photo (photoUrl : String)
deriving DecidableEq

/-- Body of POST /api/recipes and PUT /api/recipes/:id. -/
structure RecipeInput where
  name : String
  tags : List TagInput
  blocks : List BlockInput
deriving DecidableEq

/-- Stand-in for zod's `.email()` format check (external library): requires
an at-sign. Only used as a hypothesis, never unfolded by a proof. -/
def emailFormatOk (s : String) : Bool :=
  s.toList.contains '@'

/-- Embedding of `registerSchema`: email(), displayName 1..50, password 8..200. -/
def registerParseOk (b : RegisterBody) : Bool :=
  emailFormatOk b.email &&
  (1 ≤ b.displayName.length && b.displayName.length ≤ 50) &&
  (8 ≤ b.password.length && b.password.length ≤ 200)

/-- Embedding of `loginSchema`: email(), password min 1. -/
def loginParseOk (b : LoginBody) : Bool :=
  emailFormatOk b.email && 1 ≤ b.password.length

/-- Embedding of `tagInputSchema`: name 1..40, color 1..40. -/
def tagInputOk (t : TagInput) : Bool :=
  (1 ≤ t.name.length && t.name.length ≤ 40) &&
  (1 ≤ t.color.length && t.color.length ≤ 40)

/-- Embedding of `recipeBlockInputSchema`: TEXT text min 0 (always holds),
PHOTO photoUrl min 1. -/
def blockInputOk : BlockInput → Bool
  | .text _ => true
  | .photo u => 1 ≤ u.length

/-- Embedding of `recipeUpsertSchema`: name 1..120, every tag and block
valid, at least one block. -/
def recipeUpsertOk (b : RecipeInput) : Bool :=
  (1 ≤ b.name.length && b.name.length ≤ 120) &&
  b.tags.all tagInputOk &&
  b.blocks.all blockInputOk &&
  1 ≤ b.blocks.length

/- ===== Responses ===== -/

/-- Projection of a recipe for the list endpoint. -/
structure ListItem where
  id : Nat
  name : String
  ownerId : Nat
  ownerDisplayName : String
  tags : List TagRow
  firstPhotoUrl : Option String
deriving DecidableEq

/-- Projection of a recipe for the detail endpoint. -/
structure RecipeDetail where
  id : Nat
  name : String
  ownerId : Nat
  ownerDisplayName : String
  tags : List TagRow
  blocks : List BlockRow
deriving DecidableEq

/-- JSON body of a response. -/
inductive ApiBody where
  | errMsg (msg : String)
  | userJson (id : Nat) (email displayName : String) (role : Role)
  | idJson (id : Nat)
  | okTrue
  | detailJson (d : RecipeDetail)
  | listJson (items : List ListItem)
deriving DecidableEq

/-- An HTTP response: status, JSON body, and the auth cookie set on it
(if any). -/
structure ApiResp where
  status : Nat
  body : ApiBody
  setCookie : Option Jwt := none
deriving DecidableEq

/- ===== Store helpers ===== -/

/-- prisma.user.findUnique({where:{email}}). -/
def findUserByEmail (s : Store) (email : String) : Option UserRow :=
  s.users.find? (fun u => u.email == email)

/-- prisma.recipe.findUnique({where:{id}}). -/
def findRecipe (s : Store) (id : Nat) : Option RecipeRow :=
  s.recipes.find? (fun r => r.id == id)

/-- Embedding of `prisma.tag.upsert({where:{name_color:{name,color}}, update:{}, create:{name,color}})`:
return the existing row's id if a row matches the (name, color) unique key,
otherwise insert a fresh row and return its id. -/
def tagUpsert (s : Store) (name color : String) : Store × Nat :=
  match s.tags.find? (fun t => t.name == name && t.color == color) with
  | some t => (s, t.id)
  | none =>
    let tid := s.nextId
    ({ s with tags := s.tags ++ [⟨tid, name, color⟩], nextId := s.nextId + 1 }, tid)

/-- Resolve every tag input to a tag id via `tagUpsert`, in input order
(the upserts of one request execute as an ordered sequence). -/
def resolveTags (s : Store) : List TagInput → Store × List Nat
  | [] => (s, [])
  | t :: ts =>
    let r1 := tagUpsert s t.name t.color
    let r2 := resolveTags r1.1 ts
    (r2.1, r1.2 :: r2.2)

/-- Build one block row from a block input, as the create/update handlers
do: an order, a discriminant, and the matching payload column. -/
def mkBlockRow (id order : Nat) : BlockInput → BlockRow
  | .text t => ⟨id, order, .TEXT, some t, none⟩
  | .photo u => ⟨id, order, .PHOTO, none, some u⟩

/-- Build the block rows of a request: order = position in the submitted
array (`blocks.map((b, idx) => ...)`), ids drawn consecutively from the
fresh-id counter. -/
def mkBlocks (startId order : Nat) : List BlockInput → List BlockRow
  | [] => []
  | b :: bs => mkBlockRow startId order b :: mkBlocks (startId + 1) (order + 1) bs

instance : DecidableRel (fun a b : BlockRow => a.order ≤ b.order) :=
  fun a b => Nat.decLe a.order b.order

instance : DecidableRel (fun a b : RecipeRow => b.updatedAt ≤ a.updatedAt) :=
  fun a b => Nat.decLe b.updatedAt a.updatedAt

/-- Blocks of a recipe in ascending `order`, as selected by
`blocks: { orderBy: { order: 'asc' } }`. -/
def sortBlocks (bs : List BlockRow) : List BlockRow :=
  List.insertionSort (fun a b => a.order ≤ b.order) bs

/-- Recipes most recently modified first (`orderBy: { updatedAt: 'desc' }`). -/
def sortRecipesDesc (rs : List RecipeRow) : List RecipeRow :=
  List.insertionSort (fun a b : RecipeRow => b.updatedAt ≤ a.updatedAt) rs

/-- Display name of a recipe's owner (the relation select
`owner: { select: { displayName } }`; the foreign key guarantees presence,
a dangling reference renders as the empty string). -/
def ownerDisplayName (s : Store) (ownerId : Nat) : String :=
  match s.users.find? (fun u => u.id == ownerId) with
  | some u => u.displayName
  | none => ""

/-- Tag objects of a recipe (the relation select
`recipeTags: { select: { tag: ... } }`). -/
def tagsOf (s : Store) (tagIds : List Nat) : List TagRow :=
  tagIds.filterMap (fun tid => s.tags.find? (fun t => t.id == tid))

/- ===== Handlers ===== -/

/-- Embedding of POST /api/auth/register: validate, 409 when the email is
taken, otherwise hash the password, create the user, sign a token for it,
set it as the auth cookie and return the user JSON. -/
def register (hash : String → String) (secret : String) (expiresIn : Nat)
    (s : Store) (b : RegisterBody) : ApiResp × Store :=
  if ¬ registerParseOk b then ({ status := 400, body := .errMsg "Invalid payload" }, s)
  else
    match findUserByEmail s b.email with
    | some _ => ({ status := 409, body := .errMsg "Email already used" }, s)
    | none =>
      let uid := s.nextId
      let user : UserRow := ⟨uid, b.email, b.displayName, hash b.password, .USER⟩
      let payload : AuthUser := ⟨uid, user.email, user.displayName, user.role⟩
      let tok := signToken secret expiresIn s.now payload
      ({ status := 200,
         body := .userJson uid user.email user.displayName user.role,
         setCookie := some tok },
       { s with users := s.users ++ [user], nextId := s.nextId + 1 })

/-- Embedding of POST /api/auth/login: validate, look the user up by email,
and on either failure (no such user, or bcrypt.compare false) answer with
the same 401 body; on success sign a token and set the cookie.  `cmp` is
bcrypt.compare (external). -/
def login (cmp : String → String → Bool) (secret : String) (expiresIn : Nat)
    (s : Store) (b : LoginBody) : ApiResp :=
  if ¬ loginParseOk b then { status := 400, body := .errMsg "Invalid payload" }
  else
    match findUserByEmail s b.email with
    | none => { status := 401, body := .errMsg "Invalid email or password" }
    | some u =>
      if cmp b.password u.passwordHash then
        { status := 200,
          body := .userJson u.id u.email u.displayName u.role,
          setCookie := some (signToken secret expiresIn s.now ⟨u.id, u.email, u.displayName, u.role⟩) }
      else { status := 401, body := .errMsg "Invalid email or password" }

/-- Detail projection of GET /api/recipes/:id. -/
def recipeDetail (s : Store) (r : RecipeRow) : RecipeDetail :=
  ⟨r.id, r.name, r.ownerId, ownerDisplayName s r.ownerId, tagsOf s r.tagIds, sortBlocks r.blocks⟩

/-- Embedding of GET /api/recipes/:id: 404 when absent, otherwise the
detail projection with blocks in ascending order. -/
def getRecipe (s : Store) (id : Nat) : ApiResp :=
  match findRecipe s id with
  | none => { status := 404, body := .errMsg "Not found" }
  | some r => { status := 200, body := .detailJson (recipeDetail s r) }

/-- List projection of one recipe: first block (ascending order, take 1)
contributes its photoUrl iff it is a PHOTO block. -/
def listItem (s : Store) (r : RecipeRow) : ListItem :=
  { id := r.id, name := r.name, ownerId := r.ownerId,
    ownerDisplayName := ownerDisplayName s r.ownerId,
    tags := tagsOf s r.tagIds,
    firstPhotoUrl :=
      match (sortBlocks r.blocks).head? with
      | some b => if b.type = BlockType.PHOTO then b.photoUrl else none
      | none => none }

/-- Whitespace as stripped by the JavaScript String trim method. -/
def isJsSpace (c : Char) : Bool :=
  c == ' ' || c == '\t' || c == '\n' || c == '\r' || c == '\x0b' || c == '\x0c'

/-- Model of the JavaScript String trim method (an external runtime
primitive): strip leading and trailing whitespace. -/
def jsTrim (s : String) : String :=
  ((s.toList.dropWhile isJsSpace).reverse.dropWhile isJsSpace).reverse.asString

/-- Case-insensitive substring test over the character lists, used to model
Prisma `contains` with `mode: 'insensitive'`. -/
def leadsWith : List Char → List Char → Bool
  | [], _ => true
  | _ :: _, [] => false
  | a :: as, b :: bs => a == b && leadsWith as bs

/-- Occurrence of `needle` anywhere in `hay`. -/
def occursIn (needle : List Char) : List Char → Bool
  | [] => leadsWith needle []
  | c :: cs => leadsWith needle (c :: cs) || occursIn needle cs

/-- Case-insensitive `contains` of the query in a stored string. -/
def containsCI (needle hay : String) : Bool :=
  occursIn needle.toLower.toList hay.toLower.toList

/-- Row filter of the list query: with a non-empty (trimmed) q, the name or
some associated tag's name contains q case-insensitively; with an empty q,
no filter. -/
def listMatches (s : Store) (q : String) (r : RecipeRow) : Bool :=
  if q.isEmpty then true
  else
    containsCI q r.name ||
    r.tagIds.any (fun tid =>
      match s.tags.find? (fun t => t.id == tid) with
      | some t => containsCI q t.name
      | none => false)

/-- Embedding of GET /api/recipes: trim q, filter by name-or-tag substring
match, order by updatedAt descending, project.  The handler never reads the
tagIds request parameter (req.query.tagIds is unused in the source), so the
`tagIds` argument does not influence the result. -/
def listRecipes (s : Store) (qRaw : String) (tagIds : List Nat) : ApiResp :=
  let q := jsTrim qRaw
  let rs := sortRecipesDesc (s.recipes.filter (listMatches s q))
  { status := 200, body := .listJson (rs.map (listItem s)) }

/-- Embedding of POST /api/recipes: requireAuth, validate, resolve tags,
create the recipe with blocks at order = input index, return its id. -/
def createRecipe (s : Store) (user : Option AuthUser) (b : RecipeInput) : ApiResp × Store :=
  match user with
  | none => ({ status := 401, body := .errMsg "Not authenticated" }, s)
  | some u =>
    if ¬ recipeUpsertOk b then ({ status := 400, body := .errMsg "Invalid payload" }, s)
    else
      let r1 := resolveTags s b.tags
      let s1 := r1.1
      let rid := s1.nextId
      let recipe : RecipeRow :=
        ⟨rid, b.name, u.id, s1.now, r1.2, mkBlocks (s1.nextId + 1) 0 b.blocks⟩
      ({ status := 200, body := .idJson rid },
       { s1 with recipes := s1.recipes ++ [recipe],
                 nextId := s1.nextId + 1 + b.blocks.length })

/-- Embedding of PUT /api/recipes/:id: requireAuth, then the existence
check (404), then the permission check (403), then validation (400), then
the full replace of name, tag associations (deleteMany + create) and blocks
(deleteMany + create, orders from the input index). -/
def updateRecipe (s : Store) (user : Option AuthUser) (id : Nat) (b : RecipeInput) :
    ApiResp × Store :=
  match user with
  | none => ({ status := 401, body := .errMsg "Not authenticated" }, s)
  | some _ =>
    match findRecipe s id with
    | none => ({ status := 404, body := .errMsg "Not found" }, s)
    | some existing =>
      if ¬ canEdit user existing.ownerId then ({ status := 403, body := .errMsg "Forbidden" }, s)
      else if ¬ recipeUpsertOk b then ({ status := 400, body := .errMsg "Invalid payload" }, s)
      else
        let r1 := resolveTags s b.tags
        let s1 := r1.1
        let newBlocks := mkBlocks s1.nextId 0 b.blocks
        ({ status := 200, body := .okTrue },
         { s1 with
             recipes := s1.recipes.map (fun r =>
               if r.id == id then
                 { r with name := b.name, updatedAt := s1.now, tagIds := r1.2, blocks := newBlocks }
               else r),
             nextId := s1.nextId + b.blocks.length })

/-- Embedding of DELETE /api/recipes/:id: requireAuth, existence check,
permission check, then delete the recipe (cascading to its blocks and tag
association rows, which live inside the row). -/
def deleteRecipe (s : Store) (user : Option AuthUser) (id : Nat) : ApiResp × Store :=
  match user with
  | none => ({ status := 401, body := .errMsg "Not authenticated" }, s)
  | some _ =>
    match findRecipe s id with
    | none => ({ status := 404, body := .errMsg "Not found" }, s)
    | some existing =>
      if ¬ canEdit user existing.ownerId then ({ status := 403, body := .errMsg "Forbidden" }, s)
      else ({ status := 200, body := .okTrue },
            { s with recipes := s.recipes.filter (fun r => ¬ r.id == id) })

/- ===== Store well-formedness ===== -/

/-- Boolean well-formedness of the store: distinct recipe ids below the
counter, distinct tag ids below the counter, and the (name, color) unique
constraint on tags. -/
def Store.WFb (s : Store) : Bool :=
  decide (s.recipes.map RecipeRow.id).Nodup &&
  s.recipes.all (fun r => r.id < s.nextId) &&
  decide (s.tags.map TagRow.id).Nodup &&
  s.tags.all (fun t => t.id < s.nextId) &&
  decide ((s.tags.map (fun t => (t.name, t.color))).Nodup)

/-- Well-formedness as a proposition. -/
def Store.WF (s : Store) : Prop := s.WFb = true

/- ===== Concrete data used by witnesses ===== -/

/-- A plain user identity. -/
def alice : AuthUser := ⟨1, "alice@example.com", "Alice", .USER⟩

/-- A second plain user identity. -/
def bob : AuthUser := ⟨2, "bob@example.com", "Bob", .USER⟩

/-- An administrator identity. -/
def rootAdmin : AuthUser := ⟨10, "admin@example.com", "Admin", .ADMIN⟩

/-- Credential row for alice. -/
def aliceRow : UserRow := ⟨1, "alice@example.com", "Alice", "h1", .USER⟩

/-- Credential row for bob. -/
def bobRow : UserRow := ⟨2, "bob@example.com", "Bob", "h2", .USER⟩

/-- A stored tag row. -/
def veganTag : TagRow := ⟨5, "Vegan", "#00ff00"⟩

/-- A stored recipe owned by alice, with a single text block and no tag
associations. -/
def demoRecipe : RecipeRow := ⟨3, "Pancakes", 1, 0, [], [⟨4, 0, .TEXT, some "mix", none⟩]⟩

/-- A small well-formed store. -/
def demoStore : Store := ⟨[aliceRow, bobRow], [veganTag], [demoRecipe], 6, 0⟩

/-- A valid recipe input with one tag and two ordered blocks. -/
def demoInput : RecipeInput :=
  ⟨"Waffles", [⟨"Vegan", "#00ff00"⟩], [.text "a", .photo "u1"]⟩

/-- An invalid recipe input: the block list is empty, violating
`blocks: min 1` of the upsert schema. -/
def badInput : RecipeInput := ⟨"X", [], []⟩

/-- A concrete stand-in for bcrypt.compare used by witnesses: plain
equality of password and stored hash. -/
def cmpEq (password storedHash : String) : Bool := password == storedHash

/-- A concrete stand-in for bcrypt.hash used by witnesses. -/
def hashDemo (password : String) : String := "h:" ++ password

/-- Observable content of a block row: order, discriminant and payload
columns (the row id is a fresh surrogate and not part of the contract). -/
def blockProj (b : BlockRow) : Nat × BlockType × Option String × Option String :=
  (b.order, b.type, b.text, b.photoUrl)

/-- Expected observable content of the block rows written for a submitted
block array, starting at order `k`: each input at position i becomes a row
with order k + i and the matching payload column. -/
def blockSpec (k : Nat) : List BlockInput → List (Nat × BlockType × Option String × Option String)
  | [] => []
  | .text t :: bs => (k, .TEXT, some t, none) :: blockSpec (k + 1) bs
  | .photo u :: bs => (k, .PHOTO, none, some u) :: blockSpec (k + 1) bs

end RecipeSite

/- ===== Helper lemmas ===== -/

namespace RecipeSite

/-- Unpacking of the store well-formedness boolean. -/
theorem Store.WF_iff (s : Store) : s.WF ↔
    (s.recipes.map RecipeRow.id).Nodup ∧ (∀ r ∈ s.recipes, r.id < s.nextId) ∧
    (s.tags.map TagRow.id).Nodup ∧ (∀ t ∈ s.tags, t.id < s.nextId) ∧
    (s.tags.map (fun t => (t.name, t.color))).Nodup := by
  simp only [Store.WF, Store.WFb, Bool.and_eq_true, decide_eq_true_eq, List.all_eq_true]
  tauto

/-- A find? that succeeds on the left part of an append still succeeds on
the whole list. -/
theorem find?_append_some {α : Type} {p : α → Bool} {l sfx : List α} {a : α}
    (h : l.find? p = some a) : (l ++ sfx).find? p = some a := by
  simp [List.find?_append, h]

/-- A find? over an append in which the left part has no match. -/
theorem find?_append_none {α : Type} {p : α → Bool} {l sfx : List α}
    (h : l.find? p = none) : (l ++ sfx).find? p = sfx.find? p := by
  simp [List.find?_append, h]

/-- With pairwise-distinct ids, find?-by-id locates any member. -/
theorem find_tag_by_id_of_mem {l : List TagRow} {row : TagRow}
    (hnodup : (l.map TagRow.id).Nodup) (hmem : row ∈ l) :
    l.find? (fun t => t.id == row.id) = some row := by
  induction l with
  | nil => cases hmem
  | cons a t ih =>
    rw [List.map_cons, List.nodup_cons] at hnodup
    rcases List.mem_cons.mp hmem with h | h
    · subst h
      simp
    · have hne : a.id ≠ row.id := by
        intro he
        exact hnodup.1 (he ▸ List.mem_map_of_mem TagRow.id h)
      have hfa : (a.id == row.id) = false := by simpa using hne
      simp only [List.find?_cons, hfa]
      exact ih hnodup.2 h

end RecipeSite

namespace RecipeSite

/-- Fields unchanged or extended by one tag upsert. -/
theorem tagUpsert_preserves (s : Store) (n c : String) :
    (tagUpsert s n c).1.recipes = s.recipes ∧
    (tagUpsert s n c).1.users = s.users ∧
    (tagUpsert s n c).1.now = s.now ∧
    s.nextId ≤ (tagUpsert s n c).1.nextId ∧
    ∃ sfx, (tagUpsert s n c).1.tags = s.tags ++ sfx := by
  cases h : s.tags.find? (fun t => t.name == n && t.color == c) with
  | some row => exact ⟨by simp [tagUpsert, h], by simp [tagUpsert, h], by simp [tagUpsert, h],
      by simp [tagUpsert, h], ⟨[], by simp [tagUpsert, h]⟩⟩
  | none => exact ⟨by simp [tagUpsert, h], by simp [tagUpsert, h], by simp [tagUpsert, h],
      by simp [tagUpsert, h], ⟨[⟨s.nextId, n, c⟩], by simp [tagUpsert, h]⟩⟩

/-- Fields unchanged or extended by a whole tag-resolution pass. -/
theorem resolveTags_preserves (s : Store) (ts : List TagInput) :
    (resolveTags s ts).1.recipes = s.recipes ∧
    (resolveTags s ts).1.users = s.users ∧
    (resolveTags s ts).1.now = s.now ∧
    s.nextId ≤ (resolveTags s ts).1.nextId ∧
    ∃ sfx, (resolveTags s ts).1.tags = s.tags ++ sfx := by
  induction ts generalizing s with
  | nil => exact ⟨rfl, rfl, rfl, le_refl _, ⟨[], by simp [resolveTags]⟩⟩
  | cons t ts ih =>
    obtain ⟨h1, h2, h3, h4, sfx1, h5⟩ := tagUpsert_preserves s t.name t.color
    obtain ⟨g1, g2, g3, g4, sfx2, g5⟩ := ih (tagUpsert s t.name t.color).1
    refine ⟨?_, ?_, ?_, ?_, ⟨sfx1 ++ sfx2, ?_⟩⟩
    · simpa [resolveTags, g1] using h1
    · simpa [resolveTags, g2] using h2
    · simpa [resolveTags, g3] using h3
    · exact le_trans h4 (by simpa [resolveTags] using g4)
    · simp only [resolveTags]
      rw [g5, h5, List.append_assoc]

/-- One tag upsert preserves store well-formedness. -/
theorem tagUpsert_WF (s : Store) (n c : String) (hwf : s.WF) : (tagUpsert s n c).1.WF := by
  obtain ⟨w1, w2, w3, w4, w5⟩ := (Store.WF_iff s).mp hwf
  cases h : s.tags.find? (fun t => t.name == n && t.color == c) with
  | some row => simpa [tagUpsert, h] using (Store.WF_iff s).mpr ⟨w1, w2, w3, w4, w5⟩
  | none =>
    rw [Store.WF_iff]
    have hnomatch : ∀ t ∈ s.tags, ¬(t.name = n ∧ t.color = c) := by
      intro t ht hc
      have := List.find?_eq_none.mp h t ht
      simp [hc.1, hc.2] at this
    refine ⟨by simpa [tagUpsert, h] using w1, ?_, ?_, ?_, ?_⟩
    · intro r hr
      simp only [tagUpsert, h] at hr ⊢
      exact lt_trans (w2 r hr) (Nat.lt_succ_self _)
    · simp only [tagUpsert, h, List.map_append, List.map_cons, List.map_nil]
      rw [List.nodup_append]
      refine ⟨w3, List.nodup_singleton _, ?_⟩
      intro x hx hy
      simp only [List.mem_singleton] at hy
      subst hy
      obtain ⟨t, ht, hid⟩ := List.mem_map.mp hx
      exact absurd hid (Nat.ne_of_lt (w4 t ht))
    · intro t ht
      simp only [tagUpsert, h] at ht ⊢
      rcases List.mem_append.mp ht with hm | hm
      · exact lt_trans (w4 t hm) (Nat.lt_succ_self _)
      · simp only [List.mem_singleton] at hm
        subst hm
        exact Nat.lt_succ_self _
    · simp only [tagUpsert, h, List.map_append, List.map_cons, List.map_nil]
      rw [List.nodup_append]
      refine ⟨w5, List.nodup_singleton _, ?_⟩
      intro x hx hy
      simp only [List.mem_singleton] at hy
      subst hy
      obtain ⟨t, ht, hpair⟩ := List.mem_map.mp hx
      exact hnomatch t ht ⟨congrArg Prod.fst hpair, congrArg Prod.snd hpair⟩

/-- A whole tag-resolution pass preserves store well-formedness. -/
theorem resolveTags_WF (s : Store) (ts : List TagInput) (hwf : s.WF) :
    (resolveTags s ts).1.WF := by
  induction ts generalizing s with
  | nil => simpa [resolveTags] using hwf
  | cons t ts ih =>
    have h1 := tagUpsert_WF s t.name t.color hwf
    simpa [resolveTags] using ih (tagUpsert s t.name t.color).1 h1

/-- The id returned by a tag upsert resolves (in the updated store) to a
row carrying exactly the requested name and color. -/
theorem tagUpsert_found (s : Store) (n c : String) (hwf : s.WF) :
    ∃ row, (tagUpsert s n c).1.tags.find? (fun t => t.id == (tagUpsert s n c).2) = some row ∧
      row.name = n ∧ row.color = c := by
  obtain ⟨_, _, w3, w4, _⟩ := (Store.WF_iff s).mp hwf
  cases h : s.tags.find? (fun t => t.name == n && t.color == c) with
  | some row =>
    have hmem := List.mem_of_find?_eq_some h
    have hpred := List.find?_some h
    simp only [Bool.and_eq_true, beq_iff_eq] at hpred
    refine ⟨row, ?_, hpred.1, hpred.2⟩
    simp only [tagUpsert, h]
    exact find_tag_by_id_of_mem w3 hmem
  | none =>
    refine ⟨⟨s.nextId, n, c⟩, ?_, rfl, rfl⟩
    simp only [tagUpsert, h]
    have hl : s.tags.find? (fun t => t.id == s.nextId) = none := by
      rw [List.find?_eq_none]
      intro t ht
      simp only [beq_iff_eq]
      exact Nat.ne_of_lt (w4 t ht)
    rw [find?_append_none hl]
    simp

end RecipeSite

namespace RecipeSite

/-- Every block row built from position `k` onwards has order at least `k`. -/
theorem mkBlocks_order_ge (i k : Nat) (bs : List BlockInput) :
    ∀ b ∈ mkBlocks i k bs, k ≤ b.order := by
  induction bs generalizing i k with
  | nil => intro b hb; cases hb
  | cons x xs ih =>
    intro b hb
    rcases List.mem_cons.mp hb with h | h
    · subst h
      cases x <;> simp [mkBlockRow]
    · exact le_trans (Nat.le_succ k) (ih (i + 1) (k + 1) b h)

/-- The block rows of one request are already in ascending order. -/
theorem mkBlocks_sorted (i k : Nat) (bs : List BlockInput) :
    List.Sorted (fun a b : BlockRow => a.order ≤ b.order) (mkBlocks i k bs) := by
  induction bs generalizing i k with
  | nil => exact List.sorted_nil
  | cons x xs ih =>
    rw [mkBlocks, List.sorted_cons]
    refine ⟨?_, ih (i + 1) (k + 1)⟩
    intro b hb
    have hk : (mkBlockRow i k x).order = k := by cases x <;> simp [mkBlockRow]
    rw [hk]
    exact le_trans (Nat.le_succ k) (mkBlocks_order_ge (i + 1) (k + 1) xs b hb)

/-- Reading freshly written blocks back in ascending order returns them
unchanged. -/
theorem sortBlocks_mkBlocks (i k : Nat) (bs : List BlockInput) :
    sortBlocks (mkBlocks i k bs) = mkBlocks i k bs :=
  (mkBlocks_sorted i k bs).insertionSort_eq

/-- Observable content of the block rows written for a request. -/
theorem mkBlocks_proj (i k : Nat) (bs : List BlockInput) :
    (mkBlocks i k bs).map blockProj = blockSpec k bs := by
  induction bs generalizing i k with
  | nil => rfl
  | cons x xs ih =>
    cases x <;> simp [mkBlocks, mkBlockRow, blockProj, blockSpec, ih]

/-- Orders of the block rows written for a request form the contiguous
sequence k, k+1, ... of the length of the input. -/
theorem mkBlocks_orders (i k : Nat) (bs : List BlockInput) :
    (mkBlocks i k bs).map BlockRow.order = List.range' k bs.length := by
  induction bs generalizing i k with
  | nil => rfl
  | cons x xs ih =>
    rw [List.length_cons, List.range'_succ]
    cases x <;> simp [mkBlocks, mkBlockRow, ih]

/-- Every id returned by a tag-resolution pass resolves, in the store the
pass produces, to a row carrying exactly the requested name and color of
the corresponding input. -/
theorem resolveTags_found (s : Store) (ts : List TagInput) (hwf : s.WF) :
    List.Forall₂ (fun (tid : Nat) (t : TagInput) =>
      ∃ row, (resolveTags s ts).1.tags.find? (fun x => x.id == tid) = some row ∧
        row.name = t.name ∧ row.color = t.color)
      (resolveTags s ts).2 ts := by
  induction ts generalizing s with
  | nil => exact List.Forall₂.nil
  | cons t ts ih =>
    have hstep := tagUpsert_found s t.name t.color hwf
    have hwf1 := tagUpsert_WF s t.name t.color hwf
    obtain ⟨row, hfind, hname, hcolor⟩ := hstep
    obtain ⟨_, _, _, _, sfx, hext⟩ := resolveTags_preserves (tagUpsert s t.name t.color).1 ts
    have htail := ih (tagUpsert s t.name t.color).1 hwf1
    refine List.Forall₂.cons ⟨row, ?_, hname, hcolor⟩ ?_
    · show (resolveTags (tagUpsert s t.name t.color).1 ts).1.tags.find? _ = some row
      rw [hext]
      exact find?_append_some hfind
    · exact htail

/-- The tag objects looked up for a list of resolved ids carry exactly the
requested (name, color) pairs, in order. -/
theorem tagsOf_pairs {s' : Store} {tids : List Nat} {ts : List TagInput}
    (h : List.Forall₂ (fun (tid : Nat) (t : TagInput) =>
      ∃ row, s'.tags.find? (fun x => x.id == tid) = some row ∧
        row.name = t.name ∧ row.color = t.color) tids ts) :
    (tagsOf s' tids).map (fun t => (t.name, t.color)) = ts.map (fun t => (t.name, t.color)) := by
  induction h with
  | nil => rfl
  | cons hhead _ ih =>
    obtain ⟨row, hfind, hname, hcolor⟩ := hhead
    simp [tagsOf, hfind, hname, hcolor] at ih ⊢
    exact ih

/-- The tag objects looked up for a list of resolved ids carry exactly
those ids, in order. -/
theorem tagsOf_ids {s' : Store} {tids : List Nat} {ts : List TagInput}
    (h : List.Forall₂ (fun (tid : Nat) (t : TagInput) =>
      ∃ row, s'.tags.find? (fun x => x.id == tid) = some row ∧
        row.name = t.name ∧ row.color = t.color) tids ts) :
    (tagsOf s' tids).map TagRow.id = tids := by
  induction h with
  | nil => rfl
  | @cons tid t tids2 ts2 hhead htail ih =>
    obtain ⟨row, hfind, _, _⟩ := hhead
    have hid : row.id = tid := by
      have hb := List.find?_some hfind
      simpa using hb
    simp only [tagsOf, List.filterMap_cons, hfind] at ih ⊢
    rw [List.map_cons, hid, ih]

/-- Appending a recipe whose id is fresh makes it findable by that id. -/
theorem findRecipe_append (l : List RecipeRow) (r : RecipeRow)
    (h : ∀ x ∈ l, x.id ≠ r.id) :
    (l ++ [r]).find? (fun x => x.id == r.id) = some r := by
  have hl : l.find? (fun x => x.id == r.id) = none := by
    rw [List.find?_eq_none]
    intro x hx
    simpa using h x hx
  rw [find?_append_none hl]
  simp

/-- Updating the found row in place (by mapping over the table) keeps it
findable by its id, with the updated fields, provided the update preserves
the id. -/
theorem find_map_update (l : List RecipeRow) (id : Nat) (g : RecipeRow → RecipeRow)
    (hg : ∀ r, (g r).id = r.id) (ex : RecipeRow)
    (h : l.find? (fun r => r.id == id) = some ex) :
    (l.map (fun r => if r.id == id then g r else r)).find? (fun r => r.id == id) =
      some (g ex) := by
  induction l with
  | nil => cases h
  | cons a t ih =>
    cases hpa : (a.id == id) with
    | true =>
      simp only [List.find?_cons, hpa] at h
      injection h with h
      subst h
      have hga : ((g a).id == id) = true := by rw [hg a]; exact hpa
      rw [List.map_cons, if_pos hpa]
      simp only [List.find?_cons, hga]
    | false =>
      simp only [List.find?_cons, hpa] at h
      have hrec := ih h
      rw [List.map_cons, if_neg (by simp [hpa])]
      simp only [List.find?_cons, hpa]
      exact hrec

end RecipeSite

namespace RecipeSite

/-- Under the (name, color) uniqueness invariant, when a row matching the
pair exists, exactly one row matches it. -/
theorem filter_pair_unique {l : List TagRow} {n c : String}
    (hnodup : (l.map (fun t => (t.name, t.color))).Nodup) {row : TagRow}
    (h : l.find? (fun t => t.name == n && t.color == c) = some row) :
    (l.filter (fun t => t.name == n && t.color == c)).length = 1 := by
  induction l with
  | nil => cases h
  | cons a t ih =>
    rw [List.map_cons, List.nodup_cons] at hnodup
    cases hpa : (a.name == n && a.color == c) with
    | true =>
      have hpair : a.name = n ∧ a.color = c := by
        simpa [Bool.and_eq_true] using hpa
      have hfilter : t.filter (fun x => x.name == n && x.color == c) = [] := by
        rw [List.filter_eq_nil_iff]
        intro x hx hpx
        have hxpair : x.name = n ∧ x.color = c := by
          simpa [Bool.and_eq_true] using hpx
        have hxa : (x.name, x.color) = (a.name, a.color) := by
          rw [hxpair.1, hxpair.2, hpair.1, hpair.2]
        exact hnodup.1 (hxa ▸ List.mem_map_of_mem _ hx)
      simp [List.filter_cons, hpa, hfilter]
    | false =>
      simp only [List.find?_cons, hpa] at h
      have hskip : (a :: t).filter (fun x => x.name == n && x.color == c) =
          t.filter (fun x => x.name == n && x.color == c) := by
        simp [List.filter_cons, hpa]
      rw [hskip]
      exact ih hnodup.2 h

end RecipeSite

/- ===== Claim theorems and witnesses ===== -/

namespace RecipeSite

/-- C4: optional authentication never surfaces an error — a missing cookie,
a malformed token, a tampered signature or an expired token all leave the
caller anonymous — and a token produced by signToken attaches, before its
expiry, exactly the identity encoded at sign time. -/
theorem authOptional_safe_and_faithful
    (secret : String) (expiresIn now now2 : Nat) (p q : AuthUser)
    (raw sig : String) (e1 e2 : Nat)
    (hsig : sig ≠ mac secret q) (hexp : e2 ≤ now) (hfresh : now2 < now + expiresIn) :
    authOptional secret now none = none ∧
    authOptional secret now (some (.malformed raw)) = none ∧
    authOptional secret now (some (.signed q sig e1)) = none ∧
    authOptional secret now (some (.signed p (mac secret p) e2)) = none ∧
    authOptional secret now2 (some (signToken secret expiresIn now p)) = some p := by
  have hnot : ¬(now + expiresIn ≤ now2) := by omega
  refine ⟨rfl, rfl, ?_, ?_, ?_⟩
  · simp [authOptional, jwtVerify, hsig]
  · simp [authOptional, jwtVerify, hexp]
  · simp [authOptional, jwtVerify, signToken, hnot]

/-- Witness for C4 at concrete values. -/
theorem authOptional_safe_and_faithful_witness :
    authOptional "s" 10 none = none ∧
    authOptional "s" 10 (some (.malformed "zz")) = none ∧
    authOptional "s" 10 (some (.signed bob "x" 50)) = none ∧
    authOptional "s" 10 (some (.signed alice (mac "s" alice) 3)) = none ∧
    authOptional "s" 5 (some (signToken "s" 100 10 alice)) = some alice :=
  authOptional_safe_and_faithful "s" 100 10 5 alice bob "zz" "x" 50 3
    (by decide) (by decide) (by decide)

/-- C5: for an existing recipe and an authenticated caller, update and
delete succeed exactly when the caller is the owner or has role ADMIN;
otherwise both answer 403 Forbidden and leave the store unchanged. -/
theorem mutation_owner_or_admin (s : Store) (u : AuthUser) (id : Nat) (b : RecipeInput)
    (ex : RecipeRow) (hfind : findRecipe s id = some ex) (hok : recipeUpsertOk b = true) :
    (canEdit (some u) ex.ownerId = true ↔ u.role = Role.ADMIN ∨ u.id = ex.ownerId) ∧
    ((updateRecipe s (some u) id b).1.status = 200 ↔ canEdit (some u) ex.ownerId = true) ∧
    ((deleteRecipe s (some u) id).1.status = 200 ↔ canEdit (some u) ex.ownerId = true) ∧
    (canEdit (some u) ex.ownerId = false →
      updateRecipe s (some u) id b = ({ status := 403, body := .errMsg "Forbidden" }, s) ∧
      deleteRecipe s (some u) id = ({ status := 403, body := .errMsg "Forbidden" }, s)) := by
  have hiff : canEdit (some u) ex.ownerId = true ↔ u.role = Role.ADMIN ∨ u.id = ex.ownerId := by
    by_cases hr : u.role = Role.ADMIN <;> simp [canEdit, hr]
  cases hce : canEdit (some u) ex.ownerId with
  | true =>
    refine ⟨by rw [hce] at hiff; exact hiff, ?_, ?_, ?_⟩
    · simp [updateRecipe, hfind, hce, hok]
    · simp [deleteRecipe, hfind, hce]
    · intro hfalse
      simp at hfalse
  | false =>
    refine ⟨by rw [hce] at hiff; exact hiff, ?_, ?_, ?_⟩
    · simp [updateRecipe, hfind, hce]
    · simp [deleteRecipe, hfind, hce]
    · intro _
      exact ⟨by simp [updateRecipe, hfind, hce], by simp [deleteRecipe, hfind, hce]⟩

/-- Witness for C5: bob is neither owner nor admin on alice's recipe. -/
theorem mutation_owner_or_admin_witness :
    (canEdit (some bob) demoRecipe.ownerId = true ↔
      bob.role = Role.ADMIN ∨ bob.id = demoRecipe.ownerId) ∧
    ((updateRecipe demoStore (some bob) 3 demoInput).1.status = 200 ↔
      canEdit (some bob) demoRecipe.ownerId = true) ∧
    ((deleteRecipe demoStore (some bob) 3).1.status = 200 ↔
      canEdit (some bob) demoRecipe.ownerId = true) ∧
    (canEdit (some bob) demoRecipe.ownerId = false →
      updateRecipe demoStore (some bob) 3 demoInput =
        ({ status := 403, body := .errMsg "Forbidden" }, demoStore) ∧
      deleteRecipe demoStore (some bob) 3 =
        ({ status := 403, body := .errMsg "Forbidden" }, demoStore)) :=
  mutation_owner_or_admin demoStore bob 3 demoInput demoRecipe (by decide) (by decide)

/-- C6: update and delete on a non-existent recipe id answer 404 NotFound
for every authenticated caller, whatever the identity or role — the
existence check precedes the permission check, so Forbidden is never
produced for a missing recipe. -/
theorem missing_recipe_not_found (s : Store) (u : AuthUser) (id : Nat) (b : RecipeInput)
    (h : findRecipe s id = none) :
    updateRecipe s (some u) id b = ({ status := 404, body := .errMsg "Not found" }, s) ∧
    deleteRecipe s (some u) id = ({ status := 404, body := .errMsg "Not found" }, s) :=
  ⟨by simp [updateRecipe, h], by simp [deleteRecipe, h]⟩

/-- Witness for C6: even an ADMIN gets 404 on a missing id. -/
theorem missing_recipe_not_found_witness :
    updateRecipe demoStore (some rootAdmin) 99 demoInput =
      ({ status := 404, body := .errMsg "Not found" }, demoStore) ∧
    deleteRecipe demoStore (some rootAdmin) 99 =
      ({ status := 404, body := .errMsg "Not found" }, demoStore) :=
  missing_recipe_not_found demoStore rootAdmin 99 demoInput (by decide)

/-- C8: every failed login — unknown email, or known email with a failed
password comparison — produces the identical 401 response with the same
body and no cookie, so the response does not reveal whether the email
exists. -/
theorem login_failure_uniform (cmp : String → String → Bool) (secret : String)
    (expiresIn : Nat) (s : Store) (b : LoginBody)
    (hparse : loginParseOk b = true)
    (hfail : findUserByEmail s b.email = none ∨
      ∃ u, findUserByEmail s b.email = some u ∧ cmp b.password u.passwordHash = false) :
    login cmp secret expiresIn s b =
      { status := 401, body := .errMsg "Invalid email or password", setCookie := none } := by
  rcases hfail with h | ⟨u, hu, hcmp⟩
  · simp [login, hparse, h]
  · simp [login, hparse, hu, hcmp]

/-- Witness for C8: an unknown email and a wrong password for a known email
yield the very same response. -/
theorem login_failure_uniform_witness :
    login cmpEq "s" 100 demoStore ⟨"ghost@example.com", "password1"⟩ =
      { status := 401, body := .errMsg "Invalid email or password", setCookie := none } ∧
    login cmpEq "s" 100 demoStore ⟨"alice@example.com", "wrongpass"⟩ =
      { status := 401, body := .errMsg "Invalid email or password", setCookie := none } :=
  ⟨login_failure_uniform cmpEq "s" 100 demoStore ⟨"ghost@example.com", "password1"⟩
      (by decide) (Or.inl (by decide)),
    login_failure_uniform cmpEq "s" 100 demoStore ⟨"alice@example.com", "wrongpass"⟩
      (by decide) (Or.inr ⟨aliceRow, by decide, by decide⟩)⟩

/-- C9 counterexample: a PUT whose payload fails validation but whose
recipe id does not exist answers 404, not 400 — the existence lookup (a
data-layer query) runs before validation, refuting the claim that every
invalid payload yields 400 before any data-layer operation. -/
theorem validation_not_first_cex :
    recipeUpsertOk badInput = false ∧
    updateRecipe demoStore (some bob) 99 badInput =
      ({ status := 404, body := .errMsg "Not found" }, demoStore) := by
  constructor
  · rfl
  · rfl

/-- C9 amended: an invalid payload never causes a data-layer write and the
store is returned unchanged in every case; POST answers 400 at once, while
PUT runs the existence and permission checks (data-layer reads) first, so
404 and 403 take precedence and 400 is produced exactly for an editable
existing recipe. -/
theorem validation_before_write (s : Store) (u : AuthUser) (id : Nat) (b : RecipeInput)
    (hbad : recipeUpsertOk b = false) :
    createRecipe s (some u) b = ({ status := 400, body := .errMsg "Invalid payload" }, s) ∧
    (findRecipe s id = none →
      updateRecipe s (some u) id b = ({ status := 404, body := .errMsg "Not found" }, s)) ∧
    (∀ ex, findRecipe s id = some ex → canEdit (some u) ex.ownerId = false →
      updateRecipe s (some u) id b = ({ status := 403, body := .errMsg "Forbidden" }, s)) ∧
    (∀ ex, findRecipe s id = some ex → canEdit (some u) ex.ownerId = true →
      updateRecipe s (some u) id b = ({ status := 400, body := .errMsg "Invalid payload" }, s)) := by
  refine ⟨by simp [createRecipe, hbad], ?_, ?_, ?_⟩
  · intro h
    simp [updateRecipe, h]
  · intro ex hex hce
    simp [updateRecipe, hex, hce]
  · intro ex hex hce
    simp [updateRecipe, hex, hce, hbad]

/-- Witness for the amended C9 at concrete values. -/
theorem validation_before_write_witness :
    createRecipe demoStore (some bob) badInput =
      ({ status := 400, body := .errMsg "Invalid payload" }, demoStore) ∧
    (findRecipe demoStore 3 = none →
      updateRecipe demoStore (some bob) 3 badInput =
        ({ status := 404, body := .errMsg "Not found" }, demoStore)) ∧
    (∀ ex, findRecipe demoStore 3 = some ex → canEdit (some bob) ex.ownerId = false →
      updateRecipe demoStore (some bob) 3 badInput =
        ({ status := 403, body := .errMsg "Forbidden" }, demoStore)) ∧
    (∀ ex, findRecipe demoStore 3 = some ex → canEdit (some bob) ex.ownerId = true →
      updateRecipe demoStore (some bob) 3 badInput =
        ({ status := 400, body := .errMsg "Invalid payload" }, demoStore)) :=
  validation_before_write demoStore bob 3 badInput (by decide)

/-- C10: a successful registration appends exactly the new user row and
sets, as the auth cookie, a token signed for exactly that user, which
optional authentication immediately accepts as that identity — the new
user is logged in without a separate login call. -/
theorem register_logs_in (hash : String → String) (secret : String) (expiresIn : Nat)
    (s : Store) (b : RegisterBody)
    (hparse : registerParseOk b = true)
    (hfresh : findUserByEmail s b.email = none)
    (hpos : 0 < expiresIn) :
    (register hash secret expiresIn s b).1.status = 200 ∧
    (register hash secret expiresIn s b).2.users =
      s.users ++ [⟨s.nextId, b.email, b.displayName, hash b.password, Role.USER⟩] ∧
    (register hash secret expiresIn s b).1.setCookie =
      some (signToken secret expiresIn s.now ⟨s.nextId, b.email, b.displayName, Role.USER⟩) ∧
    authOptional secret s.now (register hash secret expiresIn s b).1.setCookie =
      some ⟨s.nextId, b.email, b.displayName, Role.USER⟩ := by
  have hnot : ¬(s.now + expiresIn ≤ s.now) := by omega
  refine ⟨?_, ?_, ?_, ?_⟩ <;>
    simp [register, hparse, hfresh, signToken, authOptional, jwtVerify, hnot]

/-- Witness for C10 at concrete values. -/
theorem register_logs_in_witness :
    (register hashDemo "s" 100 demoStore ⟨"carol@example.com", "Carol", "password1"⟩).1.status = 200 ∧
    (register hashDemo "s" 100 demoStore ⟨"carol@example.com", "Carol", "password1"⟩).2.users =
      demoStore.users ++ [⟨demoStore.nextId, "carol@example.com", "Carol", hashDemo "password1", Role.USER⟩] ∧
    (register hashDemo "s" 100 demoStore ⟨"carol@example.com", "Carol", "password1"⟩).1.setCookie =
      some (signToken "s" 100 demoStore.now ⟨demoStore.nextId, "carol@example.com", "Carol", Role.USER⟩) ∧
    authOptional "s" demoStore.now
        (register hashDemo "s" 100 demoStore ⟨"carol@example.com", "Carol", "password1"⟩).1.setCookie =
      some ⟨demoStore.nextId, "carol@example.com", "Carol", Role.USER⟩ :=
  register_logs_in hashDemo "s" 100 demoStore ⟨"carol@example.com", "Carol", "password1"⟩
    (by decide) (by decide) (by decide)

/-- C1: the list endpoint ignores the required tag-id set entirely — its
result is independent of that set — and concretely, a store whose only
recipe has no tag association at all still returns that recipe when tag
id 5 is required. -/
theorem list_ignores_tag_filter :
    (∀ (s : Store) (q : String) (t1 t2 : List Nat), listRecipes s q t1 = listRecipes s q t2) ∧
    demoRecipe.tagIds = [] ∧
    (listRecipes demoStore "" [5]).body = .listJson [listItem demoStore demoRecipe] :=
  ⟨fun _ _ _ _ => rfl, rfl, by decide⟩

end RecipeSite

namespace RecipeSite

/-- C7: tag resolution is idempotent — resolving the same (name, color)
pair twice returns the same identifier both times, afterwards the tag
store holds exactly one row for the pair, and a resolve that finds an
existing row returns that row's identifier without changing the store. -/
theorem tagUpsert_idempotent (s : Store) (n c : String) (hwf : s.WF) :
    (tagUpsert s n c).2 = (tagUpsert (tagUpsert s n c).1 n c).2 ∧
    ((tagUpsert (tagUpsert s n c).1 n c).1.tags.filter
        (fun t => t.name == n && t.color == c)).length = 1 ∧
    (∀ row, s.tags.find? (fun t => t.name == n && t.color == c) = some row →
      tagUpsert s n c = (s, row.id)) := by
  obtain ⟨_, _, _, w4, w5⟩ := (Store.WF_iff s).mp hwf
  cases h : s.tags.find? (fun t => t.name == n && t.color == c) with
  | some row =>
    have hfst : tagUpsert s n c = (s, row.id) := by simp [tagUpsert, h]
    refine ⟨by simp [hfst], ?_, ?_⟩
    · simp only [hfst]
      exact filter_pair_unique w5 h
    · intro row2 hrow2
      injection hrow2 with heq
      rw [← heq]
      exact hfst
  | none =>
    have hfst : tagUpsert s n c =
        ({ s with tags := s.tags ++ [⟨s.nextId, n, c⟩], nextId := s.nextId + 1 }, s.nextId) := by
      simp [tagUpsert, h]
    have hfind2 : ({ s with tags := s.tags ++ [⟨s.nextId, n, c⟩], nextId := s.nextId + 1 } :
        Store).tags.find? (fun t => t.name == n && t.color == c) = some ⟨s.nextId, n, c⟩ := by
      show (s.tags ++ [TagRow.mk s.nextId n c]).find? (fun t => t.name == n && t.color == c) =
        some (TagRow.mk s.nextId n c)
      rw [find?_append_none h]
      simp
    have hsnd : tagUpsert { s with tags := s.tags ++ [⟨s.nextId, n, c⟩], nextId := s.nextId + 1 } n c =
        ({ s with tags := s.tags ++ [⟨s.nextId, n, c⟩], nextId := s.nextId + 1 }, s.nextId) := by
      simp [tagUpsert, hfind2]
    refine ⟨?_, ?_, ?_⟩
    · simp [hfst, hsnd]
    · simp only [hfst, hsnd]
      show ((s.tags ++ [TagRow.mk s.nextId n c]).filter
        (fun t => t.name == n && t.color == c)).length = 1
      rw [List.filter_append]
      have h1 : s.tags.filter (fun t => t.name == n && t.color == c) = [] := by
        rw [List.filter_eq_nil_iff]
        intro a ha
        simpa using List.find?_eq_none.mp h a ha
      simp [h1]
    · intro row hrow
      exact Option.noConfusion hrow

/-- Witness for C7 on an existing (name, color) pair. -/
theorem tagUpsert_idempotent_witness :
    (tagUpsert demoStore "Vegan" "#00ff00").2 =
      (tagUpsert (tagUpsert demoStore "Vegan" "#00ff00").1 "Vegan" "#00ff00").2 ∧
    ((tagUpsert (tagUpsert demoStore "Vegan" "#00ff00").1 "Vegan" "#00ff00").1.tags.filter
        (fun t => t.name == "Vegan" && t.color == "#00ff00")).length = 1 ∧
    (∀ row, demoStore.tags.find? (fun t => t.name == "Vegan" && t.color == "#00ff00") = some row →
      tagUpsert demoStore "Vegan" "#00ff00" = (demoStore, row.id)) :=
  tagUpsert_idempotent demoStore "Vegan" "#00ff00" (by show demoStore.WFb = true; decide)

end RecipeSite

namespace RecipeSite

/-- C2: creating a recipe from a valid input and reading it back by the
returned id yields the submitted blocks, in the submitted order, with
order values forming the contiguous zero-based sequence 0,1,...,n-1 equal
to each block's position in the submitted array. -/
theorem create_then_read_roundtrip (s : Store) (u : AuthUser) (b : RecipeInput)
    (hwf : s.WF) (hok : recipeUpsertOk b = true) :
    ∃ rid d,
      (createRecipe s (some u) b).1 = { status := 200, body := .idJson rid } ∧
      getRecipe (createRecipe s (some u) b).2 rid =
        { status := 200, body := .detailJson d } ∧
      d.blocks.map blockProj = blockSpec 0 b.blocks ∧
      d.blocks.map BlockRow.order = List.range b.blocks.length := by
  obtain ⟨hrec, husers, hnow, hnext, sfx, htags⟩ := resolveTags_preserves s b.tags
  obtain ⟨w1, w2, w3, w4, w5⟩ := (Store.WF_iff s).mp hwf
  have houtR : (createRecipe s (some u) b).1 =
      { status := 200, body := .idJson (resolveTags s b.tags).1.nextId } := by
    simp [createRecipe, hok]
  have houtS : (createRecipe s (some u) b).2 =
      { (resolveTags s b.tags).1 with
          recipes := (resolveTags s b.tags).1.recipes ++
            [RecipeRow.mk (resolveTags s b.tags).1.nextId b.name u.id
              (resolveTags s b.tags).1.now (resolveTags s b.tags).2
              (mkBlocks ((resolveTags s b.tags).1.nextId + 1) 0 b.blocks)],
          nextId := (resolveTags s b.tags).1.nextId + 1 + b.blocks.length } := by
    simp [createRecipe, hok]
  have hfindNew : findRecipe (createRecipe s (some u) b).2 (resolveTags s b.tags).1.nextId =
      some (RecipeRow.mk (resolveTags s b.tags).1.nextId b.name u.id
        (resolveTags s b.tags).1.now (resolveTags s b.tags).2
        (mkBlocks ((resolveTags s b.tags).1.nextId + 1) 0 b.blocks)) := by
    rw [findRecipe, houtS]
    show ((resolveTags s b.tags).1.recipes ++ [RecipeRow.mk _ _ _ _ _ _]).find? _ = _
    rw [hrec]
    exact findRecipe_append s.recipes
      (RecipeRow.mk (resolveTags s b.tags).1.nextId b.name u.id
        (resolveTags s b.tags).1.now (resolveTags s b.tags).2
        (mkBlocks ((resolveTags s b.tags).1.nextId + 1) 0 b.blocks))
      (fun x hx => Nat.ne_of_lt (lt_of_lt_of_le (w2 x hx) hnext))
  refine ⟨(resolveTags s b.tags).1.nextId,
    recipeDetail (createRecipe s (some u) b).2
      (RecipeRow.mk (resolveTags s b.tags).1.nextId b.name u.id
        (resolveTags s b.tags).1.now (resolveTags s b.tags).2
        (mkBlocks ((resolveTags s b.tags).1.nextId + 1) 0 b.blocks)),
    houtR, ?_, ?_, ?_⟩
  · rw [getRecipe, hfindNew]
  · show (sortBlocks (mkBlocks ((resolveTags s b.tags).1.nextId + 1) 0 b.blocks)).map blockProj =
      blockSpec 0 b.blocks
    rw [sortBlocks_mkBlocks, mkBlocks_proj]
  · show (sortBlocks (mkBlocks ((resolveTags s b.tags).1.nextId + 1) 0 b.blocks)).map
      BlockRow.order = List.range b.blocks.length
    rw [sortBlocks_mkBlocks, mkBlocks_orders, List.range_eq_range']

/-- Witness for C2 at concrete values. -/
theorem create_then_read_roundtrip_witness :
    ∃ rid d,
      (createRecipe demoStore (some alice) demoInput).1 =
        { status := 200, body := .idJson rid } ∧
      getRecipe (createRecipe demoStore (some alice) demoInput).2 rid =
        { status := 200, body := .detailJson d } ∧
      d.blocks.map blockProj = blockSpec 0 demoInput.blocks ∧
      d.blocks.map BlockRow.order = List.range demoInput.blocks.length :=
  create_then_read_roundtrip demoStore alice demoInput
    (by show demoStore.WFb = true; decide) (by decide)

end RecipeSite

namespace RecipeSite

/-- C3: a permitted update of an existing recipe with a valid input fully
replaces its block set and tag association set — a subsequent read returns
exactly the new blocks, in input order with fresh zero-based order values,
and exactly the tag objects resolved from the new input (in order, by id
and by (name, color) pair), and none of the old content. -/
theorem update_full_replace (s : Store) (u : AuthUser) (id : Nat) (b : RecipeInput)
    (ex : RecipeRow) (hwf : s.WF) (hfind : findRecipe s id = some ex)
    (hedit : canEdit (some u) ex.ownerId = true) (hok : recipeUpsertOk b = true) :
    ∃ d,
      (updateRecipe s (some u) id b).1 = { status := 200, body := .okTrue } ∧
      getRecipe (updateRecipe s (some u) id b).2 id =
        { status := 200, body := .detailJson d } ∧
      d.name = b.name ∧
      d.blocks.map blockProj = blockSpec 0 b.blocks ∧
      d.blocks.map BlockRow.order = List.range b.blocks.length ∧
      d.tags.map (fun t => (t.name, t.color)) = b.tags.map (fun t => (t.name, t.color)) ∧
      d.tags.map TagRow.id = (resolveTags s b.tags).2 := by
  obtain ⟨hrec, husers, hnow, hnext, sfx, htags⟩ := resolveTags_preserves s b.tags
  have hforall := resolveTags_found s b.tags hwf
  have houtR : (updateRecipe s (some u) id b).1 = { status := 200, body := .okTrue } := by
    simp [updateRecipe, hfind, hedit, hok]
  have houtS : (updateRecipe s (some u) id b).2 =
      { (resolveTags s b.tags).1 with
          recipes := (resolveTags s b.tags).1.recipes.map (fun r =>
            if r.id == id then
              { r with
                  name := b.name,
                  updatedAt := (resolveTags s b.tags).1.now,
                  tagIds := (resolveTags s b.tags).2,
                  blocks := mkBlocks (resolveTags s b.tags).1.nextId 0 b.blocks }
            else r),
          nextId := (resolveTags s b.tags).1.nextId + b.blocks.length } := by
    simp [updateRecipe, hfind, hedit, hok]
  have hfindNew : findRecipe (updateRecipe s (some u) id b).2 id =
      some { ex with
              name := b.name,
              updatedAt := (resolveTags s b.tags).1.now,
              tagIds := (resolveTags s b.tags).2,
              blocks := mkBlocks (resolveTags s b.tags).1.nextId 0 b.blocks } := by
    rw [findRecipe, houtS]
    show ((resolveTags s b.tags).1.recipes.map _).find? _ = _
    rw [hrec]
    exact find_map_update s.recipes id
      (fun r => { r with
          name := b.name,
          updatedAt := (resolveTags s b.tags).1.now,
          tagIds := (resolveTags s b.tags).2,
          blocks := mkBlocks (resolveTags s b.tags).1.nextId 0 b.blocks })
      (fun r => rfl) ex hfind
  refine ⟨recipeDetail (updateRecipe s (some u) id b).2
      { ex with
          name := b.name,
          updatedAt := (resolveTags s b.tags).1.now,
          tagIds := (resolveTags s b.tags).2,
          blocks := mkBlocks (resolveTags s b.tags).1.nextId 0 b.blocks },
    houtR, ?_, rfl, ?_, ?_, ?_, ?_⟩
  · rw [getRecipe, hfindNew]
  · show (sortBlocks (mkBlocks (resolveTags s b.tags).1.nextId 0 b.blocks)).map blockProj =
      blockSpec 0 b.blocks
    rw [sortBlocks_mkBlocks, mkBlocks_proj]
  · show (sortBlocks (mkBlocks (resolveTags s b.tags).1.nextId 0 b.blocks)).map BlockRow.order =
      List.range b.blocks.length
    rw [sortBlocks_mkBlocks, mkBlocks_orders, List.range_eq_range']
  · show (tagsOf (updateRecipe s (some u) id b).2 (resolveTags s b.tags).2).map
      (fun t => (t.name, t.color)) = b.tags.map (fun t => (t.name, t.color))
    refine tagsOf_pairs ?_
    rw [houtS]
    exact hforall
  · show (tagsOf (updateRecipe s (some u) id b).2 (resolveTags s b.tags).2).map TagRow.id =
      (resolveTags s b.tags).2
    refine @tagsOf_ids (updateRecipe s (some u) id b).2 (resolveTags s b.tags).2 b.tags ?_
    rw [houtS]
    exact hforall

/-- Witness for C3: alice updates her own recipe. -/
theorem update_full_replace_witness :
    ∃ d,
      (updateRecipe demoStore (some alice) 3 demoInput).1 =
        { status := 200, body := .okTrue } ∧
      getRecipe (updateRecipe demoStore (some alice) 3 demoInput).2 3 =
        { status := 200, body := .detailJson d } ∧
      d.name = demoInput.name ∧
      d.blocks.map blockProj = blockSpec 0 demoInput.blocks ∧
      d.blocks.map BlockRow.order = List.range demoInput.blocks.length ∧
      d.tags.map (fun t => (t.name, t.color)) =
        demoInput.tags.map (fun t => (t.name, t.color)) ∧
      d.tags.map TagRow.id = (resolveTags demoStore demoInput.tags).2 :=
  update_full_replace demoStore alice 3 demoInput demoRecipe
    (by show demoStore.WFb = true; decide) (by decide) (by decide) (by decide)

end RecipeSite
